import Mathlib

/-!
Verification of the term-trace log aggregation and publication engine
(`term_trace.summarizer.core.JSONLSummarizer` and its collaborators)
against its natural-language specification.

The Python source is shallowly embedded: the tick loop of
`JSONLSummarizer._run` becomes a pure step function over an explicit
state, the file tailing becomes a function over the file's character
content and a byte offset, and external effects (HTTP calls of the
delegate, Google Docs batch updates, wall-clock time) become explicit
parameters describing their outcome.
-/

namespace TermTrace

/-- One parsed record of the JSONL log.  In the source every entry is a
Python dict produced by `json.loads`; the fields below model the keys the
engine reads, each as an `Option` because the source reads them with
`dict.get` (absent key yields `None`).  -/
structure Entry where
  etype : Option String := none
  timestamp : Option String := none
  text : Option String := none
  command : Option String := none
  output : Option String := none
  exitCode : Option Int := none
deriving DecidableEq, Repr

/-! ## File tailing (`JSONLSummarizer._run`, lines 114-143)

The loop does `f.seek(self.last_pos)`, iterates `for line in f`, and then
stores `self.last_pos = f.tell()`.  Python file iteration splits the
remaining content after every newline character, keeping the newline at
the end of each yielded line, and also yields a final non-empty fragment
that has no terminating newline.  `pyLinesAux [] cs` is exactly that
iteration over the characters `cs`. -/

def pyLinesAux (acc : List Char) : List Char → List (List Char)
  | [] => if acc = [] then [] else [acc.reverse]
  | c :: rest =>
    if c = '\n' then (acc.reverse ++ ['\n']) :: pyLinesAux [] rest
    else pyLinesAux (c :: acc) rest

/-- The lines Python file iteration yields for content `cs`. -/
def pyLines (cs : List Char) : List (List Char) := pyLinesAux [] cs

/-- One poll of the log file: seek to `lastPos`, iterate all remaining
lines, and record `f.tell()` (which after exhausting the iterator is the
end of file, or `lastPos` itself when the seek was past the end). -/
def pollRead (content : List Char) (lastPos : Nat) :
    List (List Char) × Nat :=
  (pyLines (content.drop lastPos), max lastPos content.length)

/-- A chunk of appended content ends at a line boundary. -/
def endsNl (cs : List Char) : Prop := cs.getLast? = some '\n'

instance (cs : List Char) : Decidable (endsNl cs) := by
  unfold endsNl; infer_instance

/-- Repeated polling interleaved with appends: starting from file content
`content` already consumed up to offset `pos`, append each chunk in turn
and poll once after each append, concatenating the returned lines. -/
def tailRun : List (List Char) → List Char → Nat → List (List Char)
  | [], _, _ => []
  | chunk :: rest, content, pos =>
    let content2 := content ++ chunk
    let polled := pollRead content2 pos
    polled.1 ++ tailRun rest content2 polled.2

/-! ## A model of `json.loads` for log lines

The producer (`write_jsonl_entry.py`) writes one flat JSON object per
line whose values are strings or integers.  The parser below models
`json.loads` restricted to that shape: a single object with string keys
and string or integer values, no escape sequences and no nesting
(inputs outside this fragment, which the producer never emits, are
rejected with `none`, where `json.loads` would raise or may succeed). -/

inductive JVal where
  | jstr (s : String)
  | jint (n : Int)
deriving DecidableEq, Repr

def isJsonWs (c : Char) : Bool :=
  c = ' ' ∨ c = '\n' ∨ c = '\t' ∨ c = '\r'

def skipWs : List Char → List Char
  | [] => []
  | c :: rest => if isJsonWs c then skipWs rest else c :: rest

/-- Parse the body of a JSON string after the opening quote; no escapes. -/
def parseStrAux : List Char → Option (List Char × List Char)
  | [] => none
  | c :: rest =>
    if c = '\x22' then some ([], rest)
    else if c = '\x5c' then none
    else match parseStrAux rest with
      | some (s, r) => some (c :: s, r)
      | none => none

def takeDigits : List Char → List Char × List Char
  | [] => ([], [])
  | c :: rest =>
    if c.isDigit then
      let (ds, r) := takeDigits rest
      (c :: ds, r)
    else ([], c :: rest)

def digitsToNat (ds : List Char) : Nat :=
  ds.foldl (fun n c => n * 10 + (c.toNat - 48)) 0

/-- Parse one JSON value of the fragment: a string or an integer. -/
def parseValue (cs : List Char) : Option (JVal × List Char) :=
  match cs with
  | [] => none
  | c :: rest =>
    if c = '\x22' then
      match parseStrAux rest with
      | some (s, r) => some (JVal.jstr (String.mk s), r)
      | none => none
    else if c = '-' then
      match takeDigits rest with
      | ([], _) => none
      | (ds, r) => some (JVal.jint (-(digitsToNat ds : Int)), r)
    else if c.isDigit then
      match takeDigits (c :: rest) with
      | ([], _) => none
      | (ds, r) => some (JVal.jint (digitsToNat ds : Int), r)
    else none

/-- Parse the members of an object after the opening brace (the opening
brace and a possible immediately-closing brace are handled by the
caller).  `fuel` bounds recursion by the input length. -/
def parseMembers (fuel : Nat) (cs : List Char) :
    Option (List (String × JVal) × List Char) :=
  match fuel with
  | 0 => none
  | fuel + 1 =>
    match skipWs cs with
    | '\x22' :: rest =>
      match parseStrAux rest with
      | none => none
      | some (k, r1) =>
        match skipWs r1 with
        | ':' :: r2 =>
          match parseValue (skipWs r2) with
          | none => none
          | some (v, r3) =>
            match skipWs r3 with
            | ',' :: r4 =>
              match parseMembers fuel r4 with
              | some (kvs, r5) => some ((String.mk k, v) :: kvs, r5)
              | none => none
            | '\x7d' :: r4 => some ([(String.mk k, v)], r4)
            | _ => none
        | _ => none
    | _ => none

/-- `json.loads` on one line, restricted to the producer's fragment:
a single flat object, with optional surrounding whitespace and nothing
else on the line. -/
def jsonLoads (line : List Char) : Option (List (String × JVal)) :=
  match skipWs line with
  | '\x7b' :: rest =>
    match skipWs rest with
    | '\x7d' :: r =>
      match skipWs r with
      | [] => some []
      | _ => none
    | _ =>
      match parseMembers line.length rest with
      | some (kvs, r) =>
        match skipWs r with
        | [] => some kvs
        | _ => none
      | none => none
  | _ => none

def objLookup (obj : List (String × JVal)) (k : String) : Option JVal :=
  (obj.find? (fun p => p.1 = k)).map (fun p => p.2)

def objStr (obj : List (String × JVal)) (k : String) : Option String :=
  match objLookup obj k with
  | some (JVal.jstr s) => some s
  | _ => none

def objInt (obj : List (String × JVal)) (k : String) : Option Int :=
  match objLookup obj k with
  | some (JVal.jint n) => some n
  | _ => none

/-- View a parsed JSON object as the `Entry` fields the engine reads. -/
def entryOfObj (obj : List (String × JVal)) : Entry :=
  { etype := objStr obj "type"
    timestamp := objStr obj "timestamp"
    text := objStr obj "text"
    command := objStr obj "command"
    output := objStr obj "output"
    exitCode := objInt obj "exit_code" }

/-- `json.loads` on one polled line, as an `Entry` (the `_run` loop
parses every yielded line unconditionally). -/
def parseLogLine (line : List Char) : Option Entry :=
  (jsonLoads line).map entryOfObj

/-- A concrete log file whose trailing line is complete, valid JSON but
has no terminating newline yet (the producer's newline has not been
flushed). -/
def c1PartialLine : List Char :=
  "\x7b\x22type\x22: \x22note\x22, \x22text\x22: \x22hi\x22\x7d".toList

/-- Concrete appends for the C1 witness: two appends, the first carrying
one complete note line, the second carrying two complete lines at
once. -/
def c1ChunksW : List (List Char) :=
  ["\x7b\x22type\x22: \x22note\x22, \x22text\x22: \x22a\x22\x7d\n".toList,
   ("\x7b\x22type\x22: \x22command\x22, \x22command\x22: \x22ls\x22\x7d\n" ++
    "\x7b\x22type\x22: \x22note\x22, \x22text\x22: \x22b\x22\x7d\n").toList]

/-! ## The tick loop (`JSONLSummarizer._run` and `_summarize_batch`)

The background worker's mutable state and its per-tick transformation,
embedded as a pure step function.  Writes to the markdown summary file
and to the Google Docs sink are recorded as ordered event lists rather
than as rendered text: the heading write, each mirrored batch of entries
(the `_to_markdown` rendering of `_log_entries_to_full_log`), and each
digest (the `## Summary` block of `_summarize_batch`). -/

/-- One write to the markdown summary file. -/
inductive MdEvent where
  | fullLogHeading
  | mirrored (entries : List Entry)
  | digest (s : String)
deriving DecidableEq, Repr

/-- One write to the Google Docs sink (`write_entries` / `write_summary`). -/
inductive DocEvent where
  | docMirrored (entries : List Entry)
  | docDigest (s : String)
deriving DecidableEq, Repr

/-- Constructor-time configuration of `JSONLSummarizer` relevant to the
tick loop: `mode`, `llm_function`, `batch_size`, `interval`, and whether
a Google Docs logger was successfully initialized. -/
structure EngineConfig where
  mode : String
  llm : Option (String → String)
  batchSize : Int
  interval : Int
  hasDocSink : Bool

/-- The worker's mutable state: the buffer and `last_batch_time` of
`_run`, the `_full_log_heading_written` flag, and the event logs of the
two sinks. -/
structure TickState where
  buffer : List Entry
  lastBatchTime : Int
  headingWritten : Bool
  mdEvents : List MdEvent
  docEvents : List DocEvent
deriving DecidableEq, Repr

/-- The delegate input text built by `_summarize_batch` (lines 215-219):
entries rendered and joined with blank lines.  The source indexes the
dict directly (`e["text"]`, `e["command"]`, ...); entries reaching this
branch always carry those keys, modelled with a default. -/
def delegateText (entries : List Entry) : String :=
  String.intercalate "\n\n" (entries.map fun e =>
    if e.etype = some "note" then "# Note: " ++ e.text.getD ""
    else "Command: " ++ e.command.getD "" ++ "\nOutput: " ++ e.output.getD "" ++
      "\nExit code: " ++ toString (e.exitCode.getD 0))

/-- `notes_count` of the markdown branch. -/
def noteCountOf (entries : List Entry) : Nat :=
  (entries.filter fun e => e.etype = some "note").length

/-- `cmd_entries` of the markdown branch: everything that is not a note. -/
def commandEntriesOf (entries : List Entry) : List Entry :=
  entries.filter fun e => ¬ e.etype = some "note"

/-- The command texts of the command entries (`e.get("command", "")`). -/
def commandTextsOf (entries : List Entry) : List String :=
  (commandEntriesOf entries).map fun e => e.command.getD ""

/-- `recent_cmds`: the Python slice `[-5:]` of the command texts. -/
def recentCmdsOf (entries : List Entry) : List String :=
  (commandTextsOf entries).drop ((commandTextsOf entries).length - 5)

/-- `summary_lines` of the deterministic markdown branch
(core.py lines 199-209). -/
def markdownDigestLines (entries : List Entry) : List String :=
  ("Session summary: " ++ toString entries.length ++ " entries (" ++
    toString (commandEntriesOf entries).length ++ " commands, " ++
    toString (noteCountOf entries) ++ " notes).") ::
  (if recentCmdsOf entries = [] then []
   else "Recent commands:" :: (recentCmdsOf entries).map fun c => "- " ++ c)

/-- The deterministic markdown digest: `"\n".join(summary_lines)`. -/
def markdownDigest (entries : List Entry) : String :=
  String.intercalate "\n" (markdownDigestLines entries)

/-- The digest `_summarize_batch` computes, or `none` when the method
returns without writing anything: empty batch, delegate mode with no
`llm_function`, or an unhandled mode string. -/
def summarizeBatchDigest (cfg : EngineConfig) (entries : List Entry) :
    Option String :=
  if entries = [] then none
  else if cfg.mode = "markdown" then some (markdownDigest entries)
  else if cfg.mode = "remote_llm" ∨ cfg.mode = "custom" then
    match cfg.llm with
    | none => none
    | some f => some (f (delegateText entries))
  else none

/-- `_summarize_batch`: append the digest (when one is produced) to the
markdown file and, when present, to the Google Docs sink. -/
def summarizeBatch (cfg : EngineConfig) (st : TickState)
    (entries : List Entry) : TickState :=
  match summarizeBatchDigest cfg entries with
  | none => st
  | some s =>
    { st with
      mdEvents := st.mdEvents ++ [MdEvent.digest s]
      docEvents := st.docEvents ++
        (if cfg.hasDocSink then [DocEvent.docDigest s] else []) }

/-- `_log_entries_to_full_log`: mirror the newly polled entries into
both sinks' Full Log, writing the `## Full Log` heading first if it has
never been written. -/
def logEntriesToFullLog (cfg : EngineConfig) (st : TickState)
    (entries : List Entry) : TickState :=
  if entries = [] then st
  else
    { st with
      mdEvents := st.mdEvents ++
        (if st.headingWritten then [] else [MdEvent.fullLogHeading]) ++
        [MdEvent.mirrored entries]
      headingWritten := true
      docEvents := st.docEvents ++
        (if cfg.hasDocSink then [DocEvent.docMirrored entries] else []) }

/-- The read loop of `_run` (lines 119-142) over the entries polled this
tick: a `summarize` control entry flushes a non-empty buffer on the spot
(and resets the time-trigger clock) and is skipped by `continue`; every
other entry is appended to the buffer and collected for mirroring. -/
def processPolled (cfg : EngineConfig) (now : Int) :
    List Entry → TickState → List Entry → TickState × List Entry
  | [], st, acc => (st, acc)
  | e :: rest, st, acc =>
    if e.etype = some "summarize" then
      if st.buffer = [] then processPolled cfg now rest st acc
      else
        let st2 := summarizeBatch cfg st st.buffer
        processPolled cfg now rest
          { st2 with buffer := [], lastBatchTime := now } acc
    else
      processPolled cfg now rest
        { st with buffer := st.buffer ++ [e] } (acc ++ [e])

/-- The trigger decision of `_run` (lines 151-157): size trigger first,
then, only if the size trigger did not fire, the time trigger. -/
def shouldSummarize (cfg : EngineConfig) (buffer : List Entry)
    (lastBatchTime now : Int) : Bool :=
  if cfg.batchSize > 0 ∧ (buffer.length : Int) ≥ cfg.batchSize then true
  else if cfg.interval > 0 then
    decide (buffer ≠ [] ∧ now - lastBatchTime ≥ cfg.interval)
  else false

/-- One tick of `_run`: process the polled entries, mirror the new ones,
then evaluate the trigger and flush the buffer if it fires. -/
def runTick (cfg : EngineConfig) (st : TickState) (polled : List Entry)
    (now : Int) : TickState :=
  let p := processPolled cfg now polled st []
  let st2 := logEntriesToFullLog cfg p.1 p.2
  if shouldSummarize cfg st2.buffer st2.lastBatchTime now then
    let st3 := summarizeBatch cfg st2 st2.buffer
    { st3 with buffer := [], lastBatchTime := now }
  else st2

/-- A sequence of ticks, each given the entries polled in that tick and
the wall-clock time observed in it. -/
def runTicks (cfg : EngineConfig) : TickState → List (List Entry × Int) → TickState
  | st, [] => st
  | st, t :: rest => runTicks cfg (runTick cfg st t.1 t.2) rest

/-- Python's `str.strip` whitespace set (the characters relevant
here). -/
def isStripWs (c : Char) : Bool :=
  c = ' ' ∨ c = '\t' ∨ c = '\n' ∨ c = '\r' ∨ c = '\x0c' ∨ c = '\x0b'

/-- `str.strip()` over a character list. -/
def trimChars (cs : List Char) : List Char :=
  ((cs.dropWhile isStripWs).reverse.dropWhile isStripWs).reverse

/-- `str.lower()` over a character list. -/
def lowerStr (cs : List Char) : List Char := cs.map Char.toLower

/-- Python's `pat in cs` membership on character lists. -/
def containsChars : List Char → List Char → Bool
  | [], pat => pat.isEmpty
  | c :: rest, pat => pat.isPrefixOf (c :: rest) || containsChars rest pat

/-- Substring test, modelling Python's `in` on strings. -/
def strContains (content pat : String) : Bool :=
  containsChars content.toList pat.toList

/-- The `_full_log_heading_written` flag set by the constructor
(core.py lines 60-69): `false` when the summary file did not exist (it
is created with just the title header), otherwise whether the existing
content already contains `## Full Log`. -/
def initHeadingWritten (preexisting : Option String) : Bool :=
  match preexisting with
  | some content => strContains content "## Full Log"
  | none => false

/-- The worker's state right after construction. -/
def initState (preexisting : Option String) (startTime : Int) : TickState :=
  { buffer := [], lastBatchTime := startTime
    headingWritten := initHeadingWritten preexisting
    mdEvents := [], docEvents := [] }

/-- The digests written to the markdown file, in order. -/
def mdDigests (evs : List MdEvent) : List String :=
  evs.filterMap fun ev =>
    match ev with
    | MdEvent.digest s => some s
    | _ => none

/-- The digests written to the Google Docs sink, in order. -/
def docDigests (evs : List DocEvent) : List String :=
  evs.filterMap fun ev =>
    match ev with
    | DocEvent.docDigest s => some s
    | _ => none

/-- The entry batches mirrored into the markdown Full Log, in order. -/
def mdMirrors (evs : List MdEvent) : List (List Entry) :=
  evs.filterMap fun ev =>
    match ev with
    | MdEvent.mirrored es => some es
    | _ => none

/-- The entry batches mirrored into the Google Docs Full Log, in order. -/
def docMirrors (evs : List DocEvent) : List (List Entry) :=
  evs.filterMap fun ev =>
    match ev with
    | DocEvent.docMirrored es => some es
    | _ => none

/-- The state produced by the explicit-flush path for a non-empty buffer
(core.py lines 127-132): summarize the buffer, clear it, reset the
time-trigger clock. -/
def flushState (cfg : EngineConfig) (st : TickState) (now : Int) : TickState :=
  let st2 := summarizeBatch cfg st st.buffer
  { st2 with buffer := [], lastBatchTime := now }

/-- Deterministic-markdown configuration with `batch_size = 3` and the
time trigger disabled, for the batch-correctness scenario. -/
def c5Cfg : EngineConfig :=
  { mode := "markdown", llm := none, batchSize := 3, interval := -1,
    hasDocSink := false }

/-- A concrete non-control command entry. -/
def c5EW : Entry := { etype := some "command", command := some "ls" }

/-! ## The delegate backend (`generic_llm.GenericChatSummarizer.summarize_text`)

The HTTP call is external; its outcome is an explicit parameter.  The
source catches every failure of `requests.post` / `raise_for_status`
and returns an error-message string instead of raising. -/

/-- Outcome of the delegate's HTTP round trip, as distinguished by
`summarize_text` (generic_llm.py lines 290-325). -/
inductive HttpOutcome where
  | httpError (status : Int) (excStr : String) (body : String)
  | requestFailed (excStr : String)
  | okContent (content : String)
  | okReasoning (reasoning : String)
  | okRaw (rawDump : String)
deriving DecidableEq, Repr

/-- `summarize_text(text)` for a call whose HTTP round trip has outcome
`outcome`: empty input and missing token short-circuit, an `HTTPError`
or any other exception is converted to an error string (never raised),
and a successful response yields the stripped message content, the
stripped reasoning content, or the raw JSON dump. -/
def summarizeTextResult (tokenPresent : Bool) (tokenEnvVar : String)
    (outcome : HttpOutcome) (text : String) : String :=
  if text = "" then "No text to summarize."
  else if ¬ tokenPresent then
    "API token not found (looked in env var: " ++ tokenEnvVar ++ ")"
  else
    match outcome with
    | HttpOutcome.httpError status excStr body =>
      "API error (HTTP " ++ toString status ++ "): " ++ excStr ++ " - " ++ body
    | HttpOutcome.requestFailed excStr => "Request failed: " ++ excStr
    | HttpOutcome.okContent s => s.trim
    | HttpOutcome.okReasoning r => r.trim
    | HttpOutcome.okRaw d => d

/-- The outcome is a failed HTTP round trip (network error, timeout, or
non-2xx response). -/
def isHttpFailure : HttpOutcome → Bool
  | HttpOutcome.httpError _ _ _ => true
  | HttpOutcome.requestFailed _ => true
  | _ => false

/-- Delegate-mode configuration with no delegate function. -/
def c2Cfg : EngineConfig :=
  { mode := "custom", llm := none, batchSize := 2, interval := -1,
    hasDocSink := false }

/-- Two concrete note entries. -/
def c2EA : Entry := { etype := some "note", text := some "a" }

def c2EB : Entry := { etype := some "note", text := some "b" }

/-- A concrete failed HTTP outcome: non-2xx response. -/
def c3Outc : HttpOutcome := HttpOutcome.httpError 500 "HTTPError" "rate limited"

/-- Delegate-mode configuration whose delegate is the OpenAI-style
backend experiencing the failed round trip `c3Outc`. -/
def c3Cfg : EngineConfig :=
  { mode := "custom",
    llm := some (fun t => summarizeTextResult true "OPENAI_API_KEY" c3Outc t),
    batchSize := 1, interval := -1, hasDocSink := true }

def c3E : Entry := { etype := some "note", text := some "hello" }

def c3St : TickState :=
  { buffer := [c3E], lastBatchTime := 0, headingWritten := true,
    mdEvents := [], docEvents := [] }

/-! ## Heading-emission bookkeeping for the markdown sink -/

/-- Number of `## Full Log` heading writes in a markdown event list. -/
def headingCount : List MdEvent → Nat
  | [] => 0
  | MdEvent.fullLogHeading :: rest => headingCount rest + 1
  | _ :: rest => headingCount rest

/-- Adjacent-pair discipline: a heading write is immediately followed by
a mirrored batch of entries. -/
def headingOk : MdEvent → MdEvent → Prop :=
  fun x y => x = MdEvent.fullLogHeading → ∃ es, y = MdEvent.mirrored es

/-- No mirrored batch is written while the heading is still missing:
`hW` says whether the `## Full Log` heading is already present (from the
preexisting file or an earlier event). -/
def noMirrorBeforeHeading : Bool → List MdEvent → Bool
  | _, [] => true
  | _, MdEvent.fullLogHeading :: rest => noMirrorBeforeHeading true rest
  | hW, MdEvent.mirrored _ :: rest => hW && noMirrorBeforeHeading hW rest
  | hW, _ :: rest => noMirrorBeforeHeading hW rest

/-- The reachable-state invariant behind the at-most-one-heading
property, over the flag and the markdown event list: the flag counts the
heading (preexisting or emitted), every emitted heading immediately
precedes a mirrored batch and is never last, and no mirrored batch
precedes the heading it needs. -/
def c10InvM (b0 flag : Bool) (evs : List MdEvent) : Prop :=
  ((if flag then 1 else 0 : Nat) =
    (if b0 then 1 else 0) + headingCount evs) ∧
  List.Chain' headingOk evs ∧
  evs.getLast? ≠ some MdEvent.fullLogHeading ∧
  noMirrorBeforeHeading b0 evs = true

/-- The invariant, read off a tick state. -/
def c10Inv (b0 : Bool) (st : TickState) : Prop :=
  c10InvM b0 st.headingWritten st.mdEvents

/-! ## The document sink (`google_docs.GoogleDocsLogger`)

A Google Doc body is a list of paragraphs.  Each paragraph's text ends
with its paragraph-mark newline; a page break occupies one index inside
a paragraph but contributes nothing to the joined text-run content.
Indices are 1-based over the character stream, as in the Docs API; the
page break is modelled as the character `\x0c`, excluded from text-run
joins.  External `batchUpdate` calls can fail; where a failure matters
it is an explicit parameter. -/

inductive PStyle where
  | title
  | heading1
  | normalText
deriving DecidableEq, Repr

structure Para where
  style : PStyle
  text : String
deriving DecidableEq, Repr

/-- The joined `textRun` contents of a paragraph: every character except
the page-break object. -/
def paraTextRuns (p : Para) : List Char :=
  p.text.toList.filter fun c => c ≠ '\x0c'

/-- Length of a paragraph in document indices. -/
def paraLen (p : Para) : Nat := p.text.toList.length

/-- Total index length of a run of paragraphs. -/
def restLen (paras : List Para) : Nat :=
  (paras.map paraLen).sum

/-- The document's character stream. -/
def charsOf (doc : List Para) : List Char :=
  doc.flatMap fun p => p.text.toList

/-- `_has_expected_sections`: both a HEADING_1 paragraph whose stripped
text starts with `summary` and one starting with `full log` (case
insensitive). -/
def hasExpectedSections (doc : List Para) : Bool :=
  (doc.any fun p => decide (p.style = PStyle.heading1) &&
    "summary".toList.isPrefixOf (lowerStr (trimChars (paraTextRuns p)))) &&
  (doc.any fun p => decide (p.style = PStyle.heading1) &&
    "full log".toList.isPrefixOf (lowerStr (trimChars (paraTextRuns p))))

/-- The start index of the next HEADING_1 paragraph, scanning from
global index `start`. -/
def nextHeadingStart : List Para → Nat → Option Nat
  | [], _ => none
  | p :: rest, start =>
    if p.style = PStyle.heading1 then some start
    else nextHeadingStart rest (start + paraLen p)

/-- Locate the section of `heading` (first HEADING_1 paragraph whose
stripped lowercase text-run contains the lowercase heading): returns
the section's content start (the heading paragraph's end index) and the
section end (start of the next HEADING_1 minus one, or the last
element's end index minus one) — the boundary used by both
`_append_section_content` and `_replace_section_content`. -/
def findSectionAux : List Para → Nat → String → Option (Nat × Nat)
  | [], _, _ => none
  | p :: rest, start, heading =>
    if decide (p.style = PStyle.heading1) &&
        containsChars (lowerStr (trimChars (paraTextRuns p)))
          (lowerStr heading.toList) then
      let si := start + paraLen p
      match nextHeadingStart rest si with
      | some ns => some (si, ns - 1)
      | none => some (si, si + restLen rest - 1)
    else findSectionAux rest (start + paraLen p) heading

def findSection (doc : List Para) (heading : String) : Option (Nat × Nat) :=
  findSectionAux doc 1 heading

/-- `insertText` at global index `idx`: splice the text into the
paragraph containing the index and re-split at newlines, every new
paragraph keeping the split paragraph's style. -/
def insertTextAux (t : List Char) : List Para → Nat → Nat → List Para
  | [], _, _ => []
  | p :: rest, start, idx =>
    if idx < start + paraLen p then
      let cs := p.text.toList
      let k := idx - start
      let spliced := cs.take k ++ t ++ cs.drop k
      ((pyLinesAux [] spliced).map fun l =>
        { style := p.style, text := String.mk l }) ++ rest
    else p :: insertTextAux t rest (start + paraLen p) idx

def insertTextAt (doc : List Para) (idx : Nat) (t : String) : List Para :=
  insertTextAux t.toList doc 1 idx

/-- `_append_section_content`: locate the section end of `heading` and
insert a timestamped separator followed by the new text there.  Returns
`false` — the same signal as heading-not-found — either when the heading
is missing or when the `batchUpdate` call raises (`updateFails`); in
both cases the document is left unchanged. -/
def appendSectionContent (doc : List Para) (heading text ts : String)
    (updateFails : Bool) : List Para × Bool :=
  match findSection doc heading with
  | none => (doc, false)
  | some se =>
    if updateFails then (doc, false)
    else
      (insertTextAt doc se.2 ("\n──── " ++ ts ++ " ────\n" ++ text ++ "\n"),
        true)

/-- The document's character stream with each character carrying its
paragraph's style (the paragraph mark carries the paragraph style). -/
def flattenStyled (doc : List Para) : List (Char × PStyle) :=
  doc.flatMap fun p => p.text.toList.map fun c => (c, p.style)

/-- Rebuild paragraphs from a styled character stream, splitting after
each newline; each paragraph takes the style of its paragraph mark. -/
def rebuildAux (acc : List Char) : List (Char × PStyle) → List Para
  | [] =>
    if acc = [] then []
    else [{ style := PStyle.normalText, text := String.mk acc.reverse }]
  | (c, st) :: rest =>
    if c = '\n' then
      { style := st, text := String.mk (acc.reverse ++ ['\n']) } ::
        rebuildAux [] rest
    else rebuildAux (c :: acc) rest

/-- `deleteContentRange` over global indices `[s, e)`. -/
def deleteRange (doc : List Para) (s e : Nat) : List Para :=
  let cs := flattenStyled doc
  rebuildAux [] (cs.take (s - 1) ++ cs.drop (e - 1))

/-- `updateParagraphStyle`: restyle every paragraph overlapping the
range `[s, e)`. -/
def styleRange (newStyle : PStyle) : List Para → Nat → Nat → Nat → List Para
  | [], _, _, _ => []
  | p :: rest, start, s, e =>
    (if start < e ∧ s < start + paraLen p then { p with style := newStyle }
     else p) :: styleRange newStyle rest (start + paraLen p) s e

def styleRangeAt (doc : List Para) (s e : Nat) (newStyle : PStyle) :
    List Para :=
  styleRange newStyle doc 1 s e

/-- `_replace_section_content`: delete the section body and insert the
new text in its place; when the heading is missing, append a freshly
styled heading and the text at the end of the document. -/
def replaceSectionContent (doc : List Para) (heading text : String) :
    List Para :=
  match findSection doc heading with
  | some se =>
    let doc1 := deleteRange doc se.1 se.2
    insertTextAt doc1 se.1 ("\n" ++ text ++ "\n")
  | none =>
    let ii := if doc = [] then 1 else max 1 (1 + restLen doc - 1)
    let doc1 := insertTextAt doc ii ("\n" ++ heading ++ "\n")
    let doc2 := styleRangeAt doc1 ii (ii + heading.length + 1) PStyle.heading1
    insertTextAt doc2 (ii + heading.length + 2) ("\n" ++ text ++ "\n")

/-- `find_paragraph_prefix` of `_init_doc_structure`: the bounds of the
first paragraph whose stripped text starts with `pre`. -/
def findParaPrefixAux : List Para → Nat → String → Option (Nat × Nat)
  | [], _, _ => none
  | p :: rest, start, pre =>
    if pre.toList.isPrefixOf (trimChars (paraTextRuns p)) then
      some (start, start + paraLen p)
    else findParaPrefixAux rest (start + paraLen p) pre

/-- `_init_doc_structure`: clear any existing content down to the final
paragraph mark, insert the skeleton text, then, in a second pass, style
the title and the two headings and insert a page break before `Full
Log` (the style requests use the indices read before the page-break
insertion, as the source does). -/
def initDocStructure (title workspace : String) (doc : List Para) :
    List Para :=
  let doc1 :=
    if doc ≠ [] ∧ 1 + restLen doc > 2 then deleteRange doc 1 (restLen doc)
    else doc
  let fullText :=
    title ++ " (" ++ workspace ++ ")\n" ++ "\n" ++ "Summary\n" ++
      "Session summary will appear here.\n" ++ "\n" ++ "Full Log\n" ++
      "Session logs will appear here.\n"
  let doc2 := insertTextAt doc1 1 fullText
  let d3 :=
    match findParaPrefixAux doc2 1 title with
    | some b => styleRangeAt doc2 b.1 b.2 PStyle.title
    | none => doc2
  let d4 :=
    match findParaPrefixAux doc2 1 "Summary" with
    | some b => styleRangeAt d3 b.1 b.2 PStyle.heading1
    | none => d3
  match findParaPrefixAux doc2 1 "Full Log" with
  | some b =>
    styleRangeAt (insertTextAt d4 b.1 "\x0c") b.1 b.2 PStyle.heading1
  | none => d4

/-- The document mutation decided by `GoogleDocsLogger.__init__`: leave
an already-initialized document intact, initialize otherwise; if the
structural inspection itself raised (`inspectFails`), fall back to
initializing. -/
def gdocConstructInit (title workspace : String) (doc : List Para)
    (inspectFails : Bool) : List Para :=
  if inspectFails then initDocStructure title workspace doc
  else if hasExpectedSections doc then doc
  else initDocStructure title workspace doc

/-- `write_summary`: reinitialize if the expected sections are missing,
try the append path, and fall back to the destructive replace path when
the append reports failure.  The second component records whether the
replace fallback was taken. -/
def writeSummary (title workspace : String) (doc : List Para)
    (summaryText ts : String) (updateFails : Bool) : List Para × Bool :=
  let doc0 :=
    if hasExpectedSections doc then doc
    else initDocStructure title workspace doc
  match appendSectionContent doc0 "Summary" summaryText ts updateFails with
  | (doc1, true) => (doc1, false)
  | (_, false) => (replaceSectionContent doc0 "Summary" summaryText, true)

/-- A concrete already-initialized document. -/
def c7Doc : List Para :=
  [{ style := PStyle.title, text := "term-trace: w (w)\n" },
   { style := PStyle.normalText, text := "\n" },
   { style := PStyle.heading1, text := "Summary\n" },
   { style := PStyle.normalText, text := "Session summary will appear here.\n" },
   { style := PStyle.normalText, text := "\n" },
   { style := PStyle.heading1, text := "\x0cFull Log\n" },
   { style := PStyle.normalText, text := "Session logs will appear here.\n" }]

/-- A small already-initialized document for the two-append scenario. -/
def c8Doc : List Para :=
  [{ style := PStyle.heading1, text := "Summary\n" },
   { style := PStyle.normalText, text := "S body.\n" },
   { style := PStyle.heading1, text := "Full Log\n" },
   { style := PStyle.normalText, text := "L body.\n" }]

/-! ## Session construction (`session_manager.start_session`,
`JSONLSummarizer.__init__`) -/

/-- Outcome of setting up the delegate summarizer when the credential is
present: construction raised, the connection test failed, or the test
succeeded. -/
inductive DelegateSetupOutcome where
  | initError (msg : String)
  | testFailed (msg : String)
  | testOk
deriving DecidableEq, Repr

/-- The `(actual_mode, llm_fn)` pair chosen by `start_session`
(lines 104-205): summarization disabled keeps the requested mode with no
delegate; a missing credential, a failed construction, or a failed
connection test each degrade to `markdown` with no delegate; success
yields `custom` with the delegate installed. -/
def resolveSessionMode (summarize : Bool) (summarizeMode : String)
    (env : String → Option String) (setup : DelegateSetupOutcome)
    (delegate : String → String) : String × Option (String → String) :=
  if summarize = false then (summarizeMode, none)
  else if summarizeMode = "huggingface" then
    match env "HUGGINGFACE_TOKEN" with
    | none => ("markdown", none)
    | some _ => ("custom", some delegate)
  else if summarizeMode = "openai" then
    match env "OPENAI_API_KEY" with
    | none => ("markdown", none)
    | some _ =>
      match setup with
      | DelegateSetupOutcome.testOk => ("custom", some delegate)
      | _ => ("markdown", none)
  else if summarizeMode = "github" then
    match env "GITHUB_TOKEN" with
    | none => ("markdown", none)
    | some _ =>
      match setup with
      | DelegateSetupOutcome.testOk => ("custom", some delegate)
      | _ => ("markdown", none)
  else (summarizeMode, none)

/-- Outcome of constructing `GoogleDocsLogger` (auth and document
creation are external). -/
inductive GoogleInitResult where
  | ok
  | raised (msg : String)
deriving DecidableEq, Repr

/-- Whether `JSONLSummarizer.__init__` (lines 72-95) ends up with a
Google Docs logger: disabled without error when no client secret is
available or when the logger's construction raises. -/
def googleLoggerEnabled (writeToGoogleDocs : Bool)
    (clientSecret envSecret : Option String) (ginit : GoogleInitResult) :
    Bool :=
  if writeToGoogleDocs = false then false
  else
    match clientSecret.orElse (fun _ => envSecret) with
    | none => false
    | some _ =>
      match ginit with
      | GoogleInitResult.ok => true
      | GoogleInitResult.raised _ => false

end TermTrace

namespace TermTrace

example : pyLines "a\nbc\n".toList = ["a\n".toList, "bc\n".toList] := by decide

example : pyLines "a\nbc".toList = ["a\n".toList, "bc".toList] := by decide

example :
    jsonLoads ("\x7b\x22type\x22: \x22note\x22, \x22text\x22: \x22hi\x22\x7d".toList) =
      some [("type", JVal.jstr "note"), ("text", JVal.jstr "hi")] := by decide

example :
    (parseLogLine ("\x7b\x22type\x22: \x22note\x22, \x22text\x22: \x22hi\x22\x7d".toList)).isSome = true := by
  decide

example :
    parseLogLine ("\x7b\x22exit_code\x22: -2\x7d".toList) =
      some { exitCode := some (-2) } := by decide

/-! ### Tailer lemmas -/

theorem pyLinesAux_cons_nl (acc rest : List Char) :
    pyLinesAux acc ('\n' :: rest) =
      (acc.reverse ++ ['\n']) :: pyLinesAux [] rest := by
  simp [pyLinesAux]

theorem pyLinesAux_cons_ne (acc : List Char) (c : Char) (rest : List Char)
    (hc : c ≠ '\n') :
    pyLinesAux acc (c :: rest) = pyLinesAux (c :: acc) rest := by
  simp [pyLinesAux, hc]

theorem pyLinesAux_append (a : List Char) (h : endsNl a) :
    ∀ (acc b : List Char),
      pyLinesAux acc (a ++ b) = pyLinesAux acc a ++ pyLinesAux [] b := by
  induction a with
  | nil => simp [endsNl] at h
  | cons c a ih =>
    intro acc b
    cases a with
    | nil =>
      have hc : c = '\n' := by
        simpa [endsNl] using h
      subst hc
      simp [pyLinesAux_cons_nl, pyLinesAux]
    | cons d a' =>
      have h' : endsNl (d :: a') := by
        simpa [endsNl] using h
      by_cases hc : c = '\n'
      · subst hc
        rw [List.cons_append, pyLinesAux_cons_nl, pyLinesAux_cons_nl,
          List.cons_append]
        exact congrArg _ (ih h' [] b)
      · rw [List.cons_append, pyLinesAux_cons_ne acc c _ hc,
          pyLinesAux_cons_ne acc c _ hc]
        exact ih h' (c :: acc) b

theorem pyLines_append (a b : List Char) (h : a = [] ∨ endsNl a) :
    pyLines (a ++ b) = pyLines a ++ pyLines b := by
  rcases h with h | h
  · subst h; rfl
  · exact pyLinesAux_append a h [] b

/-- After polling, `tailRun` continues from the end of file. -/
theorem tailRun_from_eof (chunks : List (List Char)) :
    ∀ content : List Char,
      tailRun chunks content content.length =
        (chunks.map pyLines).flatten := by
  induction chunks with
  | nil => intro content; rfl
  | cons chunk rest ih =>
    intro content
    have hd : (content ++ chunk).drop content.length = chunk :=
      List.drop_left content chunk
    have hm : max content.length (content ++ chunk).length =
        (content ++ chunk).length := by
      simp [Nat.max_def]
    simp only [tailRun, pollRead, hd, hm, List.map_cons, List.flatten_cons]
    rw [ih (content ++ chunk)]

theorem pyLines_flatten (chunks : List (List Char))
    (h : ∀ c ∈ chunks, c = [] ∨ endsNl c) :
    (chunks.map pyLines).flatten = pyLines chunks.flatten := by
  induction chunks with
  | nil => rfl
  | cons chunk rest ih =>
    simp only [List.map_cons, List.flatten_cons]
    rw [ih (fun c hc => h c (List.mem_cons_of_mem _ hc))]
    rw [pyLines_append chunk rest.flatten (h chunk (List.mem_cons_self _ _))]

/-- C1, counterexample: polling a file whose trailing line is not
newline-terminated returns that line anyway — and it parses into an
entry (here a note) — and the offset is advanced past it, because the
source iterates `for line in f`, which yields the final fragment even
without a newline.  This contradicts the claim that a trailing partial
line is never returned as an entry and is left unread. -/
theorem c1_partial_line_returned :
    (pollRead c1PartialLine 0).1 = [c1PartialLine] ∧
    (pollRead c1PartialLine 0).2 = c1PartialLine.length ∧
    parseLogLine c1PartialLine = some { etype := some "note", text := some "hi" } ∧
    ¬ endsNl c1PartialLine := by decide

/-- C1 (amended): provided every append to the log file is a whole
number of newline-terminated lines (so no poll ever observes a dangling
fragment), repeated polls return each line — hence each parsed entry —
exactly once and in file order: the concatenation of all poll results is
exactly the line sequence of the final file content. -/
theorem c1_tailer_exactly_once (chunks : List (List Char))
    (h : ∀ c ∈ chunks, c = [] ∨ endsNl c) :
    tailRun chunks [] 0 = pyLines chunks.flatten ∧
    (tailRun chunks [] 0).map parseLogLine =
      (pyLines chunks.flatten).map parseLogLine := by
  have h1 : tailRun chunks [] 0 = (chunks.map pyLines).flatten :=
    tailRun_from_eof chunks []
  have h2 : tailRun chunks [] 0 = pyLines chunks.flatten := by
    rw [h1, pyLines_flatten chunks h]
  exact ⟨h2, by rw [h2]⟩

theorem c1_tailer_exactly_once_witness :
    (∀ c ∈ c1ChunksW, c = [] ∨ endsNl c) ∧
      (tailRun c1ChunksW [] 0 = pyLines c1ChunksW.flatten ∧
        (tailRun c1ChunksW [] 0).map parseLogLine =
          (pyLines c1ChunksW.flatten).map parseLogLine) :=
  ⟨by decide, c1_tailer_exactly_once c1ChunksW (by decide)⟩

/-- C5: with the time trigger out of play the pass fires on a tick
exactly when the buffer has reached `batch_size`; `batch_size = 0`
disables size triggering (only the time trigger can fire); and with
`batch_size = 3`, no time trigger, and seven non-control entries
arriving one per tick, exactly two digests are produced — over entries
1-3 and over entries 4-6 — with entry 7 left in the buffer. -/
theorem c5_size_trigger (cfg : EngineConfig) (buf : List Entry) (t now : Int)
    (e1 e2 e3 e4 e5 e6 e7 : Entry)
    (h1 : e1.etype ≠ some "summarize") (h2 : e2.etype ≠ some "summarize")
    (h3 : e3.etype ≠ some "summarize") (h4 : e4.etype ≠ some "summarize")
    (h5 : e5.etype ≠ some "summarize") (h6 : e6.etype ≠ some "summarize")
    (h7 : e7.etype ≠ some "summarize") :
    (cfg.interval ≤ 0 →
      (shouldSummarize cfg buf t now = true ↔
        cfg.batchSize > 0 ∧ (buf.length : Int) ≥ cfg.batchSize)) ∧
    (cfg.batchSize = 0 →
      (shouldSummarize cfg buf t now = true ↔
        cfg.interval > 0 ∧ buf ≠ [] ∧ now - t ≥ cfg.interval)) ∧
    (mdDigests (runTicks c5Cfg (initState none 0)
        [([e1], 1), ([e2], 2), ([e3], 3), ([e4], 4), ([e5], 5), ([e6], 6),
         ([e7], 7)]).mdEvents =
      [markdownDigest [e1, e2, e3], markdownDigest [e4, e5, e6]] ∧
    (runTicks c5Cfg (initState none 0)
        [([e1], 1), ([e2], 2), ([e3], 3), ([e4], 4), ([e5], 5), ([e6], 6),
         ([e7], 7)]).buffer = [e7]) := by
  refine ⟨?_, ?_, ?_⟩
  · intro hI
    have hI' : ¬ cfg.interval > 0 := by omega
    by_cases hC : cfg.batchSize > 0 ∧ (buf.length : Int) ≥ cfg.batchSize
    · simp [shouldSummarize, hC, hI']
    · simp [shouldSummarize, hC, hI']
  · intro hB
    have hC : ¬ (cfg.batchSize > 0 ∧ (buf.length : Int) ≥ cfg.batchSize) := by
      rw [hB]; simp
    by_cases hI : cfg.interval > 0
    · simp [shouldSummarize, hC, hI, and_assoc]
    · simp [shouldSummarize, hC, hI]
  · constructor <;>
      simp [runTicks, runTick, processPolled, logEntriesToFullLog,
        shouldSummarize, summarizeBatch, summarizeBatchDigest, initState,
        initHeadingWritten, mdDigests, c5Cfg, h1, h2, h3, h4, h5, h6, h7]

theorem shouldSummarize_nil (cfg : EngineConfig) (t now : Int) :
    shouldSummarize cfg [] t now = false := by
  have h : ¬ (cfg.batchSize > 0 ∧ ((([] : List Entry).length : Int)) ≥ cfg.batchSize) := by
    simp only [List.length_nil, Nat.cast_zero]
    omega
  simp [shouldSummarize, h]

theorem mdMirrors_append (a b : List MdEvent) :
    mdMirrors (a ++ b) = mdMirrors a ++ mdMirrors b := by
  simp [mdMirrors, List.filterMap_append]

theorem docMirrors_append (a b : List DocEvent) :
    docMirrors (a ++ b) = docMirrors a ++ docMirrors b := by
  simp [docMirrors, List.filterMap_append]

/-- C4: a polled `summarize` control entry is a no-op on an empty buffer
(the tick leaves the whole state — sinks included — untouched); on a
non-empty buffer it produces exactly the flush state (digest written,
buffer cleared, time-trigger clock reset), which is also exactly what a
size trigger produces on a tick with no new entries; and in both cases
the control entry is never mirrored to any sink's Full Log. -/
theorem c4_control_entry (cfg : EngineConfig) (st : TickState) (ctl : Entry)
    (now : Int) (hctl : ctl.etype = some "summarize") :
    (st.buffer = [] → runTick cfg st [ctl] now = st) ∧
    (st.buffer ≠ [] → runTick cfg st [ctl] now = flushState cfg st now) ∧
    (cfg.batchSize > 0 → (st.buffer.length : Int) ≥ cfg.batchSize →
      runTick cfg st [] now = flushState cfg st now) ∧
    mdMirrors (runTick cfg st [ctl] now).mdEvents = mdMirrors st.mdEvents ∧
    docMirrors (runTick cfg st [ctl] now).docEvents = docMirrors st.docEvents := by
  have ha : st.buffer = [] → runTick cfg st [ctl] now = st := by
    intro hb
    simp [runTick, processPolled, hctl, hb, logEntriesToFullLog,
      shouldSummarize_nil]
  have hflush : st.buffer ≠ [] → runTick cfg st [ctl] now = flushState cfg st now := by
    intro hb
    simp [runTick, processPolled, hctl, hb, logEntriesToFullLog,
      shouldSummarize_nil, flushState]
  refine ⟨ha, hflush, ?_, ?_, ?_⟩
  · intro hbs hlen
    simp [runTick, processPolled, logEntriesToFullLog, shouldSummarize,
      hbs, hlen, flushState]
  · by_cases hb : st.buffer = []
    · rw [ha hb]
    · rw [hflush hb]
      rcases hd : summarizeBatchDigest cfg st.buffer with _ | s <;>
        simp [flushState, summarizeBatch, hd, mdMirrors, List.filterMap_append]
  · by_cases hb : st.buffer = []
    · rw [ha hb]
    · rw [hflush hb]
      rcases hd : summarizeBatchDigest cfg st.buffer with _ | s
      · simp [flushState, summarizeBatch, hd]
      · by_cases hdoc : cfg.hasDocSink <;>
          simp [flushState, summarizeBatch, hd, hdoc, docMirrors,
            List.filterMap_append]

theorem c4_control_entry_witness :
    (({ etype := some "summarize" } : Entry).etype = some "summarize") ∧
    (let st : TickState :=
      { buffer := [{ etype := some "note", text := some "n" }],
        lastBatchTime := 0, headingWritten := false, mdEvents := [],
        docEvents := [] }
     let cfg : EngineConfig :=
      { mode := "markdown", llm := none, batchSize := 5, interval := -1,
        hasDocSink := false }
     (st.buffer = [] →
        runTick cfg st [{ etype := some "summarize" }] 9 = st) ∧
     (st.buffer ≠ [] →
        runTick cfg st [{ etype := some "summarize" }] 9 = flushState cfg st 9) ∧
     (cfg.batchSize > 0 → (st.buffer.length : Int) ≥ cfg.batchSize →
        runTick cfg st [] 9 = flushState cfg st 9) ∧
     mdMirrors (runTick cfg st [{ etype := some "summarize" }] 9).mdEvents =
        mdMirrors st.mdEvents ∧
     docMirrors (runTick cfg st [{ etype := some "summarize" }] 9).docEvents =
        docMirrors st.docEvents) :=
  ⟨by decide, c4_control_entry _ _ _ 9 (by decide)⟩

theorem c5_size_trigger_witness :
    c5EW.etype ≠ some "summarize" ∧
    ((c5Cfg.interval ≤ 0 →
      (shouldSummarize c5Cfg [] 0 0 = true ↔
        c5Cfg.batchSize > 0 ∧ (([] : List Entry).length : Int) ≥ c5Cfg.batchSize)) ∧
    (c5Cfg.batchSize = 0 →
      (shouldSummarize c5Cfg [] 0 0 = true ↔
        c5Cfg.interval > 0 ∧ ([] : List Entry) ≠ [] ∧ 0 - 0 ≥ c5Cfg.interval)) ∧
    (mdDigests (runTicks c5Cfg (initState none 0)
        [([c5EW], 1), ([c5EW], 2), ([c5EW], 3), ([c5EW], 4), ([c5EW], 5),
         ([c5EW], 6), ([c5EW], 7)]).mdEvents =
      [markdownDigest [c5EW, c5EW, c5EW], markdownDigest [c5EW, c5EW, c5EW]] ∧
    (runTicks c5Cfg (initState none 0)
        [([c5EW], 1), ([c5EW], 2), ([c5EW], 3), ([c5EW], 4), ([c5EW], 5),
         ([c5EW], 6), ([c5EW], 7)]).buffer = [c5EW])) :=
  ⟨by decide,
   c5_size_trigger c5Cfg [] 0 0 c5EW c5EW c5EW c5EW c5EW c5EW c5EW
     (by decide) (by decide) (by decide) (by decide) (by decide) (by decide)
     (by decide)⟩

/-- C2, counterexample: in delegate mode with no delegate function, two
entries arriving with `batch_size = 2` make the size trigger fire; the
batch is skipped (no digest), but the buffer is cleared rather than left
pending — the entries are lost, and a subsequent `summarize` control
signal finds nothing to flush.  This contradicts the claim that the
buffered entries remain pending for the next trigger or control
signal. -/
theorem c2_entries_lost :
    shouldSummarize c2Cfg [c2EA, c2EB] 0 2 = true ∧
    mdDigests (runTicks c2Cfg (initState none 0)
      [([c2EA], 1), ([c2EB], 2)]).mdEvents = [] ∧
    (runTicks c2Cfg (initState none 0) [([c2EA], 1), ([c2EB], 2)]).buffer = [] ∧
    (runTicks c2Cfg (initState none 0)
        [([c2EA], 1), ([c2EB], 2)]).buffer ≠ [c2EA, c2EB] ∧
    runTick c2Cfg (runTicks c2Cfg (initState none 0) [([c2EA], 1), ([c2EB], 2)])
        [{ etype := some "summarize" }] 3 =
      runTicks c2Cfg (initState none 0) [([c2EA], 1), ([c2EB], 2)] := by
  decide

/-- C2 (amended): in delegate mode with the delegate absent the pass is
non-fatal — `_summarize_batch` returns without writing any digest and
the worker continues — but when a trigger fires the buffer is cleared
all the same: the buffered entries are lost, not left pending. -/
theorem c2_delegate_absent (cfg : EngineConfig) (st : TickState) (now : Int)
    (hm : cfg.mode = "custom" ∨ cfg.mode = "remote_llm")
    (hllm : cfg.llm = none) :
    (∀ entries, summarizeBatchDigest cfg entries = none) ∧
    (∀ entries, summarizeBatch cfg st entries = st) ∧
    (shouldSummarize cfg st.buffer st.lastBatchTime now = true →
      runTick cfg st [] now = { st with buffer := [], lastBatchTime := now }) := by
  have hnone : ∀ entries, summarizeBatchDigest cfg entries = none := by
    intro entries
    rcases hm with hm | hm <;> simp [summarizeBatchDigest, hm, hllm]
  refine ⟨hnone, ?_, ?_⟩
  · intro entries
    simp [summarizeBatch, hnone]
  · intro htrig
    simp [runTick, processPolled, logEntriesToFullLog, htrig,
      summarizeBatch, hnone]

theorem c2_delegate_absent_witness :
    (c2Cfg.mode = "custom" ∨ c2Cfg.mode = "remote_llm") ∧ c2Cfg.llm = none ∧
    summarizeBatchDigest c2Cfg [c2EA] = none ∧
    (shouldSummarize c2Cfg [c2EA, c2EB] 0 5 = true →
      runTick c2Cfg
          { buffer := [c2EA, c2EB], lastBatchTime := 0, headingWritten := true,
            mdEvents := [], docEvents := [] } [] 5 =
        { buffer := [], lastBatchTime := 5, headingWritten := true,
          mdEvents := [], docEvents := [] }) :=
  ⟨Or.inl rfl, rfl,
   (c2_delegate_absent c2Cfg
     { buffer := [c2EA, c2EB], lastBatchTime := 0, headingWritten := true,
       mdEvents := [], docEvents := [] } 5 (Or.inl rfl) rfl).1 [c2EA],
   fun htrig =>
     (c2_delegate_absent c2Cfg
       { buffer := [c2EA, c2EB], lastBatchTime := 0, headingWritten := true,
         mdEvents := [], docEvents := [] } 5 (Or.inl rfl) rfl).2.2 htrig⟩

/-- C3, counterexample: when the delegate's HTTP call fails (here a 500
response), `summarize_text` returns an error-message string instead of
raising, and the engine writes that string as the batch's digest to both
the markdown sink and the document sink — contradicting the claim that
no digest is written for that batch.  The buffer is indeed cleared. -/
theorem c3_digest_written_on_failure :
    mdDigests (runTick c3Cfg c3St [] 1).mdEvents =
      ["API error (HTTP 500): HTTPError - rate limited"] ∧
    docDigests (runTick c3Cfg c3St [] 1).docEvents =
      ["API error (HTTP 500): HTTPError - rate limited"] ∧
    (runTick c3Cfg c3St [] 1).buffer = [] := by
  decide

/-- C3 (amended): when the delegate's HTTP call fails, the delegate does
not raise — it returns an error-message string (`API error (HTTP …)` for
a non-2xx response, `Request failed: …` for a network error or timeout)
— and the engine writes that string as the batch's digest to the
markdown sink and, when present, the document sink; the buffer entries
are treated as handled (cleared, not regrown). -/
theorem c3_failure_digest (cfg : EngineConfig) (st : TickState) (now : Int)
    (v : String) (outc : HttpOutcome)
    (hm : cfg.mode = "custom" ∨ cfg.mode = "remote_llm")
    (hllm : cfg.llm = some (fun t => summarizeTextResult true v outc t))
    (hbuf : st.buffer ≠ [])
    (htext : delegateText st.buffer ≠ "")
    (htrig : shouldSummarize cfg st.buffer st.lastBatchTime now = true) :
    mdDigests (runTick cfg st [] now).mdEvents =
      mdDigests st.mdEvents ++
        [summarizeTextResult true v outc (delegateText st.buffer)] ∧
    docDigests (runTick cfg st [] now).docEvents =
      docDigests st.docEvents ++
        (if cfg.hasDocSink then
          [summarizeTextResult true v outc (delegateText st.buffer)] else []) ∧
    (runTick cfg st [] now).buffer = [] ∧
    (∀ s e b, outc = HttpOutcome.httpError s e b →
      summarizeTextResult true v outc (delegateText st.buffer) =
        "API error (HTTP " ++ toString s ++ "): " ++ e ++ " - " ++ b) ∧
    (∀ e, outc = HttpOutcome.requestFailed e →
      summarizeTextResult true v outc (delegateText st.buffer) =
        "Request failed: " ++ e) := by
  have hdig : summarizeBatchDigest cfg st.buffer =
      some (summarizeTextResult true v outc (delegateText st.buffer)) := by
    rcases hm with hm | hm <;> simp [summarizeBatchDigest, hbuf, hm, hllm]
  have hstep : runTick cfg st [] now =
      { summarizeBatch cfg st st.buffer with buffer := [], lastBatchTime := now } := by
    simp [runTick, processPolled, logEntriesToFullLog, htrig]
  refine ⟨?_, ?_, ?_, ?_, ?_⟩
  · simp [hstep, summarizeBatch, hdig, mdDigests, List.filterMap_append]
  · by_cases hdoc : cfg.hasDocSink <;>
      simp [hstep, summarizeBatch, hdig, hdoc, docDigests,
        List.filterMap_append]
  · simp [hstep]
  · intro s e b ho
    subst ho
    simp [summarizeTextResult, htext]
  · intro e ho
    subst ho
    simp [summarizeTextResult, htext]

theorem c3_failure_digest_witness :
    ((c3Cfg.mode = "custom" ∨ c3Cfg.mode = "remote_llm") ∧
      c3Cfg.llm = some (fun t => summarizeTextResult true "OPENAI_API_KEY" c3Outc t) ∧
      c3St.buffer ≠ [] ∧ delegateText c3St.buffer ≠ "" ∧
      shouldSummarize c3Cfg c3St.buffer c3St.lastBatchTime 1 = true) ∧
    (mdDigests (runTick c3Cfg c3St [] 1).mdEvents =
      mdDigests c3St.mdEvents ++
        [summarizeTextResult true "OPENAI_API_KEY" c3Outc (delegateText c3St.buffer)] ∧
    docDigests (runTick c3Cfg c3St [] 1).docEvents =
      docDigests c3St.docEvents ++
        (if c3Cfg.hasDocSink then
          [summarizeTextResult true "OPENAI_API_KEY" c3Outc (delegateText c3St.buffer)]
         else []) ∧
    (runTick c3Cfg c3St [] 1).buffer = [] ∧
    (∀ s e b, c3Outc = HttpOutcome.httpError s e b →
      summarizeTextResult true "OPENAI_API_KEY" c3Outc (delegateText c3St.buffer) =
        "API error (HTTP " ++ toString s ++ "): " ++ e ++ " - " ++ b) ∧
    (∀ e, c3Outc = HttpOutcome.requestFailed e →
      summarizeTextResult true "OPENAI_API_KEY" c3Outc (delegateText c3St.buffer) =
        "Request failed: " ++ e)) :=
  ⟨⟨Or.inl rfl, rfl, by decide, by decide, by decide⟩,
   c3_failure_digest c3Cfg c3St 1 "OPENAI_API_KEY" c3Outc (Or.inl rfl) rfl
     (by decide) (by decide) (by decide)⟩

/-- C6: in deterministic-markdown mode every non-empty batch yields a
digest (the method never fails): its first line carries the total entry
count and the command-versus-note counts, and the remaining lines list
exactly the command texts of at most the last five command entries of
the batch (a suffix of the batch's command texts). -/
theorem c6_markdown_digest (cfg : EngineConfig) (entries : List Entry)
    (hm : cfg.mode = "markdown") (hne : entries ≠ []) :
    summarizeBatchDigest cfg entries = some (markdownDigest entries) ∧
    (markdownDigestLines entries).head? =
      some ("Session summary: " ++ toString entries.length ++ " entries (" ++
        toString (commandEntriesOf entries).length ++ " commands, " ++
        toString (noteCountOf entries) ++ " notes).") ∧
    markdownDigestLines entries =
      ("Session summary: " ++ toString entries.length ++ " entries (" ++
        toString (commandEntriesOf entries).length ++ " commands, " ++
        toString (noteCountOf entries) ++ " notes).") ::
      (if recentCmdsOf entries = [] then []
       else "Recent commands:" :: (recentCmdsOf entries).map fun c => "- " ++ c) ∧
    (recentCmdsOf entries).length ≤ 5 ∧
    recentCmdsOf entries <:+ commandTextsOf entries := by
  refine ⟨?_, rfl, rfl, ?_, ?_⟩
  · simp [summarizeBatchDigest, hne, hm]
  · simp only [recentCmdsOf, List.length_drop]
    omega
  · exact List.drop_suffix _ _

theorem c6_markdown_digest_witness :
    (c5Cfg.mode = "markdown" ∧ ([c2EA] : List Entry) ≠ []) ∧
    (summarizeBatchDigest c5Cfg [c2EA] = some (markdownDigest [c2EA]) ∧
      (markdownDigestLines [c2EA]).head? =
        some ("Session summary: " ++ toString ([c2EA] : List Entry).length ++
          " entries (" ++ toString (commandEntriesOf [c2EA]).length ++
          " commands, " ++ toString (noteCountOf [c2EA]) ++ " notes).") ∧
      markdownDigestLines [c2EA] =
        ("Session summary: " ++ toString ([c2EA] : List Entry).length ++
          " entries (" ++ toString (commandEntriesOf [c2EA]).length ++
          " commands, " ++ toString (noteCountOf [c2EA]) ++ " notes).") ::
        (if recentCmdsOf [c2EA] = [] then []
         else "Recent commands:" :: (recentCmdsOf [c2EA]).map fun c => "- " ++ c) ∧
      (recentCmdsOf [c2EA]).length ≤ 5 ∧
      recentCmdsOf [c2EA] <:+ commandTextsOf [c2EA]) :=
  ⟨⟨rfl, by decide⟩, c6_markdown_digest c5Cfg [c2EA] rfl (by decide)⟩

/-! ### C10: the `## Full Log` heading is written at most once -/

theorem headingCount_append (a b : List MdEvent) :
    headingCount (a ++ b) = headingCount a + headingCount b := by
  induction a with
  | nil => simp [headingCount]
  | cons e rest ih =>
    cases e with
    | fullLogHeading => simp [headingCount, ih]; omega
    | mirrored es => simp [headingCount, ih]
    | digest s => simp [headingCount, ih]

theorem nmbh_append_all (b0 : Bool) (a chunk : List MdEvent)
    (ha : noMirrorBeforeHeading b0 a = true)
    (hchunk : ∀ w, noMirrorBeforeHeading w chunk = true) :
    noMirrorBeforeHeading b0 (a ++ chunk) = true := by
  induction a generalizing b0 with
  | nil => simpa using hchunk b0
  | cons e rest ih =>
    cases e with
    | fullLogHeading =>
      simp only [List.cons_append, noMirrorBeforeHeading] at ha ⊢
      exact ih true ha
    | mirrored es =>
      simp only [List.cons_append, noMirrorBeforeHeading,
        Bool.and_eq_true] at ha ⊢
      exact ⟨ha.1, ih b0 ha.2⟩
    | digest s =>
      simp only [List.cons_append, noMirrorBeforeHeading] at ha ⊢
      exact ih b0 ha

theorem nmbh_append_mirror (b0 : Bool) (a : List MdEvent) (es : List Entry)
    (ha : noMirrorBeforeHeading b0 a = true)
    (hflag : b0 = true ∨ 1 ≤ headingCount a) :
    noMirrorBeforeHeading b0 (a ++ [MdEvent.mirrored es]) = true := by
  induction a generalizing b0 with
  | nil =>
    rcases hflag with h | h
    · subst h; simp [noMirrorBeforeHeading]
    · simp [headingCount] at h
  | cons e rest ih =>
    cases e with
    | fullLogHeading =>
      simp only [List.cons_append, noMirrorBeforeHeading] at ha ⊢
      exact ih true ha (Or.inl rfl)
    | mirrored es2 =>
      simp only [List.cons_append, noMirrorBeforeHeading,
        Bool.and_eq_true] at ha ⊢
      refine ⟨ha.1, ih b0 ha.2 (Or.inl ha.1)⟩
    | digest s =>
      simp only [List.cons_append, noMirrorBeforeHeading] at ha ⊢
      refine ih b0 ha ?_
      rcases hflag with h | h
      · exact Or.inl h
      · right; simpa [headingCount] using h

/-- Appending a digest write preserves the invariant. -/
theorem c10InvM_digest (b0 flag : Bool) (evs : List MdEvent) (s : String)
    (inv : c10InvM b0 flag evs) :
    c10InvM b0 flag (evs ++ [MdEvent.digest s]) := by
  rcases inv with ⟨h1, h2, h3, h4⟩
  refine ⟨?_, ?_, ?_, ?_⟩
  · simpa [headingCount_append, headingCount] using h1
  · rw [List.chain'_append]
    refine ⟨h2, List.chain'_singleton _, ?_⟩
    intro x hx y hy hxh
    rw [hxh] at hx
    exact absurd (by rw [hx] at h3; exact h3 rfl) not_false
  · simp [List.getLast?_concat]
  · exact nmbh_append_all b0 _ _ h4 (fun w => by simp [noMirrorBeforeHeading])

/-- A mirroring write — with the heading first when it is still missing
— establishes the invariant with the flag set. -/
theorem c10InvM_mirror (b0 flag : Bool) (evs : List MdEvent)
    (entries : List Entry) (inv : c10InvM b0 flag evs) :
    c10InvM b0 true
      (evs ++ (if flag then [] else [MdEvent.fullLogHeading]) ++
        [MdEvent.mirrored entries]) := by
  rcases inv with ⟨h1, h2, h3, h4⟩
  by_cases hw : flag
  · rw [if_pos hw, List.append_nil]
    rw [if_pos hw] at h1
    refine ⟨?_, ?_, ?_, ?_⟩
    · simpa [headingCount_append, headingCount] using h1
    · rw [List.chain'_append]
      exact ⟨h2, List.chain'_singleton _, fun x _ y hy _ =>
        ⟨entries, by simpa using hy.symm⟩⟩
    · simp [List.getLast?_concat]
    · refine nmbh_append_mirror b0 _ _ h4 ?_
      cases b0 with
      | true => exact Or.inl rfl
      | false => right; simp at h1; omega
  · rw [if_neg hw]
    rw [if_neg hw] at h1
    have hb0 : b0 = false := by
      cases b0 with
      | true => exact absurd h1 (by simp; omega)
      | false => rfl
    have hc0 : headingCount evs = 0 := by
      rw [hb0] at h1; simpa using h1.symm
    refine ⟨?_, ?_, ?_, ?_⟩
    · simp [headingCount_append, headingCount, hb0, hc0]
    · rw [List.append_assoc, List.chain'_append]
      refine ⟨h2, ?_, ?_⟩
      · rw [show [MdEvent.fullLogHeading] ++ [MdEvent.mirrored entries] =
            [MdEvent.fullLogHeading, MdEvent.mirrored entries] from rfl,
          List.chain'_pair]
        exact fun _ => ⟨entries, rfl⟩
      · intro x hx y hy hxh
        rw [hxh] at hx
        exact absurd (by rw [hx] at h3; exact h3 rfl) not_false
    · simp [List.getLast?_concat]
    · rw [List.append_assoc]
      refine nmbh_append_all b0 _ _ h4 (fun w => ?_)
      simp [noMirrorBeforeHeading]

theorem c10Inv_summarizeBatch (b0 : Bool) (cfg : EngineConfig) (st : TickState)
    (entries : List Entry) (inv : c10Inv b0 st) :
    c10Inv b0 (summarizeBatch cfg st entries) := by
  rcases hd : summarizeBatchDigest cfg entries with _ | s
  · simpa [summarizeBatch, hd] using inv
  · unfold summarizeBatch
    rw [hd]
    exact c10InvM_digest b0 st.headingWritten st.mdEvents s inv

theorem c10Inv_logEntries (b0 : Bool) (cfg : EngineConfig) (st : TickState)
    (entries : List Entry) (inv : c10Inv b0 st) :
    c10Inv b0 (logEntriesToFullLog cfg st entries) := by
  by_cases hne : entries = []
  · simpa [logEntriesToFullLog, hne] using inv
  · unfold logEntriesToFullLog
    rw [if_neg hne]
    exact c10InvM_mirror b0 st.headingWritten st.mdEvents entries inv

theorem c10Inv_processPolled (b0 : Bool) (cfg : EngineConfig) (now : Int) :
    ∀ (polled : List Entry) (st : TickState) (acc : List Entry),
      c10Inv b0 st → c10Inv b0 (processPolled cfg now polled st acc).1 := by
  intro polled
  induction polled with
  | nil => intro st acc h; exact h
  | cons e rest ih =>
    intro st acc h
    by_cases he : e.etype = some "summarize"
    · by_cases hb : st.buffer = []
      · simpa [processPolled, he, hb] using ih st acc h
      · simp only [processPolled, if_pos he, if_neg hb]
        exact ih _ acc (c10Inv_summarizeBatch b0 cfg st st.buffer h)
    · simp only [processPolled, if_neg he]
      exact ih _ _ h

theorem c10Inv_runTick (b0 : Bool) (cfg : EngineConfig) (st : TickState)
    (polled : List Entry) (now : Int) (inv : c10Inv b0 st) :
    c10Inv b0 (runTick cfg st polled now) := by
  unfold runTick
  have h2 := c10Inv_logEntries b0 cfg _
    (processPolled cfg now polled st []).2
    (c10Inv_processPolled b0 cfg now polled st [] inv)
  by_cases ht : shouldSummarize cfg
      (logEntriesToFullLog cfg (processPolled cfg now polled st []).1
        (processPolled cfg now polled st []).2).buffer
      (logEntriesToFullLog cfg (processPolled cfg now polled st []).1
        (processPolled cfg now polled st []).2).lastBatchTime now = true
  · simp only [ht, if_pos]
    exact c10Inv_summarizeBatch b0 cfg _ _ h2
  · simp only [Bool.not_eq_true] at ht
    simp only [ht, Bool.false_eq_true, if_false]
    exact h2

theorem c10Inv_runTicks (b0 : Bool) (cfg : EngineConfig) :
    ∀ (ticks : List (List Entry × Int)) (st : TickState),
      c10Inv b0 st → c10Inv b0 (runTicks cfg st ticks) := by
  intro ticks
  induction ticks with
  | nil => intro st h; exact h
  | cons t rest ih =>
    intro st h
    exact ih _ (c10Inv_runTick b0 cfg st t.1 t.2 h)

/-- C10: across one engine lifetime the `## Full Log` heading is written
to the markdown sink at most once — and never when the preexisting file
already contained it — it is never the last write (each heading write is
immediately followed by the mirrored entries it introduces), and no
entries are mirrored before the heading is available. -/
theorem c10_heading_at_most_once (cfg : EngineConfig) (pre : Option String)
    (t0 : Int) (ticks : List (List Entry × Int)) :
    headingCount (runTicks cfg (initState pre t0) ticks).mdEvents ≤
      (if initHeadingWritten pre then 0 else 1) ∧
    List.Chain' headingOk (runTicks cfg (initState pre t0) ticks).mdEvents ∧
    (runTicks cfg (initState pre t0) ticks).mdEvents.getLast? ≠
      some MdEvent.fullLogHeading ∧
    noMirrorBeforeHeading (initHeadingWritten pre)
      (runTicks cfg (initState pre t0) ticks).mdEvents = true := by
  have hinit : c10Inv (initHeadingWritten pre) (initState pre t0) := by
    refine ⟨?_, List.chain'_nil, by simp [initState], by simp [initState, noMirrorBeforeHeading]⟩
    simp [initState, headingCount]
  have hfin := c10Inv_runTicks (initHeadingWritten pre) cfg ticks
    (initState pre t0) hinit
  rcases hfin with ⟨h1, h2, h3, h4⟩
  refine ⟨?_, h2, h3, h4⟩
  split_ifs at h1 ⊢ <;> omega

/-! ### C7 and C8: the document sink -/

theorem pyLinesAux_flatten :
    ∀ (cs acc : List Char), (pyLinesAux acc cs).flatten = acc.reverse ++ cs := by
  intro cs
  induction cs with
  | nil =>
    intro acc
    by_cases h : acc = []
    · simp [pyLinesAux, h]
    · simp [pyLinesAux, h]
  | cons c rest ih =>
    intro acc
    by_cases hc : c = '\n'
    · subst hc
      simp [pyLinesAux_cons_nl, ih]
    · rw [pyLinesAux_cons_ne acc c rest hc, ih (c :: acc)]
      simp

theorem charsOf_append (a b : List Para) :
    charsOf (a ++ b) = charsOf a ++ charsOf b := by
  simp [charsOf]

theorem charsOf_insertTextAux (t : List Char) :
    ∀ (paras : List Para) (start idx : Nat),
      start ≤ idx → idx < start + restLen paras →
      charsOf (insertTextAux t paras start idx) =
        (charsOf paras).take (idx - start) ++ t ++
          (charsOf paras).drop (idx - start) := by
  intro paras
  induction paras with
  | nil =>
    intro start idx h1 h2
    simp [restLen] at h2
    omega
  | cons p rest ih =>
    intro start idx h1 h2
    by_cases h : idx < start + paraLen p
    · rw [insertTextAux, if_pos h]
      have hmk : ∀ l : List Char, (String.mk l).toList = l := fun _ => rfl
      have hk : idx - start ≤ (p.text.toList).length := by
        simp only [paraLen] at h
        omega
      rw [charsOf_append]
      have hflat : charsOf ((pyLinesAux []
          (p.text.toList.take (idx - start) ++ t ++
            p.text.toList.drop (idx - start))).map fun l =>
              { style := p.style, text := String.mk l }) =
          p.text.toList.take (idx - start) ++ t ++
            p.text.toList.drop (idx - start) := by
        simp only [charsOf, List.flatMap_map]
        have := pyLinesAux_flatten
          (p.text.toList.take (idx - start) ++ t ++
            p.text.toList.drop (idx - start)) []
        simpa [List.flatMap_def, hmk] using this
      rw [hflat]
      have hcons : charsOf (p :: rest) = p.text.toList ++ charsOf rest := by
        simp [charsOf]
      rw [hcons, List.take_append_eq_append_take, List.drop_append_eq_append_drop]
      have h0 : idx - start - p.text.toList.length = 0 := by
        simp only [paraLen] at h
        omega
      rw [h0]
      simp
    · rw [insertTextAux, if_neg h]
      have hcons : ∀ l : List Para,
          charsOf (p :: l) = p.text.toList ++ charsOf l := by
        intro l; simp [charsOf]
      have hle : start + paraLen p ≤ idx := by omega
      have hup : idx < start + paraLen p + restLen rest := by
        simp only [restLen, List.map_cons, List.sum_cons] at h2
        simp only [restLen]
        omega
      rw [hcons, hcons,
        ih (start + paraLen p) idx hle hup,
        List.take_append_eq_append_take, List.drop_append_eq_append_drop]
      have hlen : p.text.toList.length = paraLen p := rfl
      have htk : p.text.toList.take (idx - start) = p.text.toList :=
        List.take_of_length_le (by omega)
      have hdp : p.text.toList.drop (idx - start) = [] :=
        List.drop_eq_nil_of_le (by omega)
      have harith : idx - start - p.text.toList.length =
          idx - (start + paraLen p) := by
        rw [hlen]; omega
      rw [htk, hdp, harith]
      simp

theorem nextHeadingStart_bounds :
    ∀ (paras : List Para) (start ns : Nat),
      (∀ p ∈ paras, 1 ≤ paraLen p) →
      nextHeadingStart paras start = some ns →
      start ≤ ns ∧ ns < start + restLen paras := by
  intro paras
  induction paras with
  | nil => intro start ns _ h; simp [nextHeadingStart] at h
  | cons p rest ih =>
    intro start ns hwf h
    have hp : 1 ≤ paraLen p := hwf p (List.mem_cons_self _ _)
    rw [nextHeadingStart] at h
    by_cases hh : p.style = PStyle.heading1
    · rw [if_pos hh] at h
      injection h with h
      subst h
      constructor
      · exact Nat.le_refl _
      · simp only [restLen, List.map_cons, List.sum_cons]
        omega
    · rw [if_neg hh] at h
      have := ih (start + paraLen p) ns
        (fun q hq => hwf q (List.mem_cons_of_mem _ hq)) h
      constructor
      · omega
      · simp only [restLen, List.map_cons, List.sum_cons]
        simp only [restLen] at this
        omega

theorem findSectionAux_bounds :
    ∀ (paras : List Para) (start : Nat) (heading : String) (si se : Nat),
      (∀ p ∈ paras, 1 ≤ paraLen p) →
      findSectionAux paras start heading = some (si, se) →
      start ≤ se ∧ se < start + restLen paras := by
  intro paras
  induction paras with
  | nil => intro start heading si se _ h; simp [findSectionAux] at h
  | cons p rest ih =>
    intro start heading si se hwf h
    have hp : 1 ≤ paraLen p := hwf p (List.mem_cons_self _ _)
    rw [findSectionAux] at h
    by_cases hm : (decide (p.style = PStyle.heading1) &&
        containsChars (lowerStr (trimChars (paraTextRuns p)))
          (lowerStr heading.toList)) = true
    · rw [if_pos hm] at h
      rcases hns : nextHeadingStart rest (start + paraLen p) with _ | ns
      · simp only [hns, Option.some.injEq, Prod.mk.injEq] at h
        rcases h with ⟨h1, h2⟩
        subst h2
        simp only [restLen, List.map_cons, List.sum_cons]
        omega
      · simp only [hns, Option.some.injEq, Prod.mk.injEq] at h
        rcases h with ⟨h1, h2⟩
        subst h2
        have := nextHeadingStart_bounds rest (start + paraLen p) ns
          (fun q hq => hwf q (List.mem_cons_of_mem _ hq)) hns
        simp only [restLen, List.map_cons, List.sum_cons]
        simp only [restLen] at this
        omega
    · rw [if_neg hm] at h
      have := ih (start + paraLen p) heading si se
        (fun q hq => hwf q (List.mem_cons_of_mem _ hq)) h
      simp only [restLen, List.map_cons, List.sum_cons]
      simp only [restLen] at this
      omega

/-- C7: constructing the document sink against a document that already
has both top-level headings mutates nothing — the document is returned
intact — so constructing twice in a row leaves the prior content in
place (no cleared content, no duplicate headings). -/
theorem c7_idempotent_construction (title ws : String) (doc : List Para)
    (h : hasExpectedSections doc = true) :
    gdocConstructInit title ws doc false = doc ∧
    gdocConstructInit title ws (gdocConstructInit title ws doc false) false =
      doc := by
  have h1 : gdocConstructInit title ws doc false = doc := by
    simp [gdocConstructInit, h]
  exact ⟨h1, by rw [h1]; exact h1⟩

theorem c7_idempotent_construction_witness :
    hasExpectedSections c7Doc = true ∧
    (gdocConstructInit "t" "w" c7Doc false = c7Doc ∧
      gdocConstructInit "t" "w" (gdocConstructInit "t" "w" c7Doc false) false =
        c7Doc) :=
  ⟨by decide, c7_idempotent_construction "t" "w" c7Doc (by decide)⟩

/-- C8: with the Summary section present, `write_summary` takes the
append path: the separator and digest are inserted exactly at the
section's end boundary, with every character of the prior document kept
(the stream is split at the boundary and nothing is dropped); the
destructive replace path is taken exactly when the append reports
failure; and two appends in sequence yield a document holding both
digests in order with no earlier content removed. -/
theorem c8_append_over_replace (title ws text ts : String) (doc : List Para)
    (si se : Nat)
    (hwf : ∀ p ∈ doc, 1 ≤ paraLen p)
    (hhas : hasExpectedSections doc = true)
    (hfind : findSection doc "Summary" = some (si, se)) :
    appendSectionContent doc "Summary" text ts false =
      (insertTextAt doc se ("\n──── " ++ ts ++ " ────\n" ++ text ++ "\n"),
        true) ∧
    charsOf (insertTextAt doc se ("\n──── " ++ ts ++ " ────\n" ++ text ++ "\n")) =
      (charsOf doc).take (se - 1) ++
        ("\n──── " ++ ts ++ " ────\n" ++ text ++ "\n").toList ++
        (charsOf doc).drop (se - 1) ∧
    (∀ u : Bool, (writeSummary title ws doc text ts u).2 = u) ∧
    charsOf (writeSummary "t" "w"
        (writeSummary "t" "w" c8Doc "digest one" "T1" false).1
        "digest two" "T2" false).1 =
      ("Summary\nS body.\n──── T1 ────\ndigest one\n\n──── T2 ────\n" ++
        "digest two\n\nFull Log\nL body.\n").toList := by
  have hfind' : findSectionAux doc 1 "Summary" = some (si, se) := hfind
  have hb := findSectionAux_bounds doc 1 "Summary" si se hwf hfind
  refine ⟨?_, ?_, ?_, ?_⟩
  · simp [appendSectionContent, findSection, hfind']
  · have := charsOf_insertTextAux
      ("\n──── " ++ ts ++ " ────\n" ++ text ++ "\n").toList doc 1 se
      (by omega) (by omega)
    simpa [insertTextAt] using this
  · intro u
    cases u with
    | false =>
      simp [writeSummary, hhas, appendSectionContent, findSection, hfind']
    | true =>
      simp [writeSummary, hhas, appendSectionContent, findSection, hfind']
  · decide

theorem c8_append_over_replace_witness :
    ((∀ p ∈ c8Doc, 1 ≤ paraLen p) ∧
      hasExpectedSections c8Doc = true ∧
      findSection c8Doc "Summary" = some (9, 16)) ∧
    (appendSectionContent c8Doc "Summary" "d" "T" false =
      (insertTextAt c8Doc 16 ("\n──── " ++ "T" ++ " ────\n" ++ "d" ++ "\n"),
        true) ∧
    charsOf (insertTextAt c8Doc 16 ("\n──── " ++ "T" ++ " ────\n" ++ "d" ++ "\n")) =
      (charsOf c8Doc).take 15 ++
        ("\n──── " ++ "T" ++ " ────\n" ++ "d" ++ "\n").toList ++
        (charsOf c8Doc).drop 15 ∧
    (∀ u : Bool, (writeSummary "t" "w" c8Doc "d" "T" u).2 = u) ∧
    charsOf (writeSummary "t" "w"
        (writeSummary "t" "w" c8Doc "digest one" "T1" false).1
        "digest two" "T2" false).1 =
      ("Summary\nS body.\n──── T1 ────\ndigest one\n\n──── T2 ────\n" ++
        "digest two\n\nFull Log\nL body.\n").toList) :=
  ⟨⟨by decide, by decide, by decide⟩,
   c8_append_over_replace "t" "w" "d" "T" c8Doc 9 16 (by decide) (by decide)
     (by decide)⟩

/-! ### C9: credential absence degrades, never fails -/

/-- C9: requesting summarization with the delegate credential absent
degrades the engine to deterministic-markdown mode with no delegate (no
error is raised — the resolution is total), deterministic digests are
still produced for every non-empty batch, and a missing Google client
secret merely disables the document sink. -/
theorem c9_credential_degradation (env : String → Option String)
    (setup : DelegateSetupOutcome) (delegate : String → String)
    (w : Bool) (ginit : GoogleInitResult)
    (hkey : env "OPENAI_API_KEY" = none) :
    resolveSessionMode true "openai" env setup delegate = ("markdown", none) ∧
    (∀ (batchSize interval : Int) (hasDoc : Bool) (entries : List Entry),
      entries ≠ [] →
      summarizeBatchDigest
        { mode := (resolveSessionMode true "openai" env setup delegate).1,
          llm := (resolveSessionMode true "openai" env setup delegate).2,
          batchSize := batchSize, interval := interval,
          hasDocSink := hasDoc } entries = some (markdownDigest entries)) ∧
    googleLoggerEnabled w none none ginit = false ∧
    (env "HUGGINGFACE_TOKEN" = none →
      resolveSessionMode true "huggingface" env setup delegate =
        ("markdown", none)) ∧
    (env "GITHUB_TOKEN" = none →
      resolveSessionMode true "github" env setup delegate =
        ("markdown", none)) := by
  have hr : resolveSessionMode true "openai" env setup delegate =
      ("markdown", none) := by
    simp [resolveSessionMode, hkey]
  refine ⟨hr, ?_, ?_, ?_, ?_⟩
  · intro batchSize interval hasDoc entries hne
    rw [hr]
    simp [summarizeBatchDigest, hne]
  · cases w <;> cases ginit <;> rfl
  · intro hh
    simp [resolveSessionMode, hh]
  · intro hg
    simp [resolveSessionMode, hg]

theorem c9_credential_degradation_witness :
    ((fun _ => none : String → Option String) "OPENAI_API_KEY" = none ∧
      (fun _ => none : String → Option String) "HUGGINGFACE_TOKEN" = none ∧
      (fun _ => none : String → Option String) "GITHUB_TOKEN" = none) ∧
    (resolveSessionMode true "openai" (fun _ => none)
        DelegateSetupOutcome.testOk id = ("markdown", none) ∧
    summarizeBatchDigest
        { mode := (resolveSessionMode true "openai" (fun _ => none)
            DelegateSetupOutcome.testOk id).1,
          llm := (resolveSessionMode true "openai" (fun _ => none)
            DelegateSetupOutcome.testOk id).2,
          batchSize := 5, interval := -1, hasDocSink := false } [c2EA] =
        some (markdownDigest [c2EA]) ∧
    googleLoggerEnabled true none none GoogleInitResult.ok = false) := by
  have h := c9_credential_degradation (fun _ => none)
    DelegateSetupOutcome.testOk id true GoogleInitResult.ok rfl
  exact ⟨⟨rfl, rfl, rfl⟩, h.1, h.2.1 5 (-1) false [c2EA] (by decide), h.2.2.1⟩

end TermTrace
